import Mathlib

/-!
Verification of the `prepy` line-oriented conditional preprocessor
(`prepy.py`): a shallow embedding of its single scanning loop
(`preprocess`), its regular-expression directive matchers, its
conditional stack and its definitions mapping, together with theorems
about the behaviours documented for it.

Modelling conventions:
* A Python line (an element of `infile.readlines()`) is a Lean `String`.
* Python values flowing through the engine are modelled by `PyVal`
  (integers, booleans and `None` are the only values the engine's own
  expressions produce here).  Python's `and` returns one of its operands,
  so the emission flag is a `PyVal` gated by truthiness, exactly as in
  the source.
* The conditional stack is a Lean list whose head is the top of the
  Python list (`stack[-1]`); `stack.append` is cons, `stack.pop` is tail.
* Exceptions are an `Err` inductive in an `Except`; Python aborts the
  pass on the first exception, which `Except` bind mirrors.
-/

namespace Prepy

/-- Python values manipulated by the engine: `None`, booleans, integers. -/
inductive PyVal where
  | noneV : PyVal
  | bool : Bool → PyVal
  | int : Int → PyVal
deriving DecidableEq

/-- Python truthiness for the values above: `None` and `0` and `False`
are falsy, everything else truthy. -/
def truthy : PyVal → Bool
  | .noneV => false
  | .bool b => b
  | .int n => decide (n ≠ 0)

/-- Python `a and b`: returns `a` when `a` is falsy, else `b`. -/
def pyAnd (a b : PyVal) : PyVal :=
  if truthy a then b else a

/-- The `defines` mapping: an insertion-ordered dict from names to values. -/
abbrev Defs := List (String × PyVal)

/-- Dict lookup (`defines[k]` read / membership support). -/
def lookupDef : Defs → String → Option PyVal
  | [], _ => Option.none
  | (k0, v0) :: rest, k => if k0 = k then some v0 else lookupDef rest k

/-- Dict membership test (`k in defines`). -/
def hasDef (d : Defs) (k : String) : Bool :=
  (lookupDef d k).isSome

/-- Dict assignment `defines[k] = v`: rebinds in place, appends new keys. -/
def setDef : Defs → String → PyVal → Defs
  | [], k, v => [(k, v)]
  | (k0, v0) :: rest, k, v =>
    if k0 = k then (k0, v) :: rest else (k0, v0) :: setDef rest k v

/-- Dict deletion `del defines[k]`: `Option.none` models the `KeyError`
raised when the key is absent. -/
def delDef : Defs → String → Option Defs
  | [], _ => Option.none
  | (k0, v0) :: rest, k =>
    if k0 = k then some rest
    else Option.map (fun r => (k0, v0) :: r) (delDef rest k)

/-- Characters matched by the regex class `\s` (Python 2, no locale). -/
def isPySpace (c : Char) : Bool :=
  c = ' ' || c = '\t' || c = '\n' || c = '\r' || c = '\x0b' || c = '\x0c'

/-- Characters matched by the regex class `\w` (Python 2, no locale). -/
def isWordChar (c : Char) : Bool :=
  ('a' ≤ c && c ≤ 'z') || ('A' ≤ c && c ≤ 'Z') || ('0' ≤ c && c ≤ '9') || c = '_'

/-- Backtracking match of the regex fragment `\s*(.+)` against a suffix:
greedily consume whitespace, then capture at least one non-newline
character; on failure give whitespace back one character at a time, as
the regex engine does.  Returns the text captured by `(.+)` (everything
up to the next newline or the end). -/
def matchSpacesDotPlus : List Char → Option (List Char)
  | [] => Option.none
  | c :: cs =>
    if isPySpace c then
      match matchSpacesDotPlus cs with
      | some g => some g
      | Option.none =>
        if c = '\n' then Option.none
        else some (List.takeWhile (fun d => d ≠ '\n') (c :: cs))
    else
      if c = '\n' then Option.none
      else some (List.takeWhile (fun d => d ≠ '\n') (c :: cs))

/-- Match of `\s+(.+)`: one mandatory whitespace character followed by
`\s*(.+)` with the same backtracking. -/
def matchSpacesPlusDotPlus : List Char → Option (List Char)
  | [] => Option.none
  | c :: cs => if isPySpace c then matchSpacesDotPlus cs else Option.none

/-- Match of `\s+(\w+)` returning the group and the rest of the input:
after the whitespace the greedy `(\w+)` captures the maximal word-char
run (shorter whitespace runs would expose a whitespace char, which is
not a word char, so no further backtracking can succeed). -/
def spacesThenWord : List Char → Option (List Char × List Char)
  | [] => Option.none
  | c :: cs =>
    if isPySpace c then
      match List.takeWhile isWordChar (List.dropWhile isPySpace cs) with
      | [] => Option.none
      | w => some (w, List.dropWhile isWordChar (List.dropWhile isPySpace cs))
    else Option.none

/-- The source's `_PREFIX = re.compile(r'^##\s*(.+)').match`: returns the
directive payload (group 1) when the line is recognised as a directive. -/
def prefixMatch : List Char → Option (List Char)
  | '#' :: '#' :: rest => matchSpacesDotPlus rest
  | _ => Option.none

/-- The source's `_IF = re.compile(r'IF\s+(.+)').match`, applied to the
payload; returns the expression text (group 1). -/
def ifMatch : List Char → Option (List Char)
  | 'I' :: 'F' :: rest => matchSpacesPlusDotPlus rest
  | _ => Option.none

/-- The source's `_ELIF = re.compile(r'ELIF\s+.+').match`.  Note the
pattern has NO capture group, so only success of the match can be
reported; `group(1)` on this match raises `IndexError` in the source. -/
def elifMatch : List Char → Bool
  | 'E' :: 'L' :: 'I' :: 'F' :: rest => (matchSpacesPlusDotPlus rest).isSome
  | _ => false

/-- The source's `_ELSE = re.compile(r'ELSE\b').match`: the keyword
followed by a word boundary. -/
def elseMatch : List Char → Bool
  | 'E' :: 'L' :: 'S' :: 'E' :: rest =>
    match rest with
    | [] => true
    | c :: _ => !isWordChar c
  | _ => false

/-- The source's `_ENDIF = re.compile(r'ENDIF\b').match`. -/
def endifMatch : List Char → Bool
  | 'E' :: 'N' :: 'D' :: 'I' :: 'F' :: rest =>
    match rest with
    | [] => true
    | c :: _ => !isWordChar c
  | _ => false

/-- The source's `_IFDEF = re.compile(r'IFDEF\s+(\w+)').match`: returns
the name (group 1). -/
def ifdefMatch : List Char → Option (List Char)
  | 'I' :: 'F' :: 'D' :: 'E' :: 'F' :: rest =>
    Option.map (fun p => p.1) (spacesThenWord rest)
  | _ => Option.none

/-- The source's `_IFNDEF = re.compile(r'IFNDEF\s+(\w+)').match`. -/
def ifndefMatch : List Char → Option (List Char)
  | 'I' :: 'F' :: 'N' :: 'D' :: 'E' :: 'F' :: rest =>
    Option.map (fun p => p.1) (spacesThenWord rest)
  | _ => Option.none

/-- The source's `_DEFINE = re.compile(r'DEFINE\s+(\w+)\s*(?:=\s*(.+))?').match`:
returns the name (group 1) and the optional expression (group 2).  The
optional group matches empty whenever `=\s*(.+)` fails, so the regex
succeeds as soon as the name is found. -/
def defineMatch : List Char → Option (List Char × Option (List Char))
  | 'D' :: 'E' :: 'F' :: 'I' :: 'N' :: 'E' :: rest =>
    match spacesThenWord rest with
    | Option.none => Option.none
    | some (name, rest2) =>
      match List.dropWhile isPySpace rest2 with
      | '=' :: rest4 =>
        match matchSpacesDotPlus rest4 with
        | some expr => some (name, some expr)
        | Option.none => some (name, Option.none)
      | _ => some (name, Option.none)
  | _ => Option.none

/-- The source's `_UNDEF = re.compile(r'UNDEF(?:INE)?\s+(\w+)').match`:
the optional `INE` is tried greedily first; when it was consumed but the
tail fails, the regex backtracks to the bare `UNDEF` spelling. -/
def undefMatch : List Char → Option (List Char)
  | 'U' :: 'N' :: 'D' :: 'E' :: 'F' :: rest =>
    match rest with
    | 'I' :: 'N' :: 'E' :: rest2 =>
      match spacesThenWord rest2 with
      | some p => some p.1
      | Option.none => Option.map (fun p => p.1) (spacesThenWord rest)
    | _ => Option.map (fun p => p.1) (spacesThenWord rest)
  | _ => Option.none

/-- Classification of a directive payload, in the source's dispatch
order (`_IF`, `_ELIF`, `_ELSE`, `_ENDIF`, `_IFDEF`, `_IFNDEF`,
`_DEFINE`, `_UNDEF`, unknown). -/
inductive LineClass where
  | ifL (expr : List Char)
  | elifL
  | elseL
  | endifL
  | ifdefL (name : List Char)
  | ifndefL (name : List Char)
  | defineL (name : List Char) (expr : Option (List Char))
  | undefL (name : List Char)
  | unknownL
  | textL
deriving DecidableEq

/-- Dispatch over the payload of a directive line, mirroring the
`if/elif` chain of regex tests in `preprocess`. -/
def classifyPayload (p : List Char) : LineClass :=
  match ifMatch p with
  | some e => .ifL e
  | Option.none =>
    if elifMatch p then .elifL
    else if elseMatch p then .elseL
    else if endifMatch p then .endifL
    else
      match ifdefMatch p with
      | some n => .ifdefL n
      | Option.none =>
        match ifndefMatch p with
        | some n => .ifndefL n
        | Option.none =>
          match defineMatch p with
          | some (n, oe) => .defineL n oe
          | Option.none =>
            match undefMatch p with
            | some n => .undefL n
            | Option.none => .unknownL

/-- Classification of a whole input line: non-directive lines (no
`_PREFIX` match) are plain text. -/
def classify (line : String) : LineClass :=
  match prefixMatch line.data with
  | Option.none => .textL
  | some payload => classifyPayload payload

/-- Errors the pass can raise.  The first three are
`PreprocessorError`s of the source; the rest are ordinary Python
exceptions escaping from the loop (`IndexError` from `group(1)` on the
group-less `_ELIF` pattern, `TypeError` from `eval(None)`, `KeyError`
from `del`, and `NameError`/`SyntaxError`/`TypeError` from `eval`). -/
inductive Err where
  | unexpectedContinuation (lineno : Nat)
  | unknownDirective (lineno : Nat)
  | blocksOpen (stack : List (PyVal × Nat))
  | noSuchGroup
  | evalArgNone
  | keyError (name : String)
  | nameError (name : String)
  | badExpr
  | evalTypeError
deriving DecidableEq

/-- Tokens of the host expression language fragment modelled here. -/
inductive PyTok where
  | num (n : Nat)
  | name (s : String)
  | plus
  | gt
deriving DecidableEq

/-- Numeric value of a decimal digit run. -/
def natOfDigits (ds : List Char) : Nat :=
  ds.foldl (fun a c => a * 10 + (c.toNat - 48)) 0

/-- Tokenizer worker for the modelled expression fragment: integer
literals, names, `+`, `>`, whitespace, and `#` starting a comment that
runs to the end of the expression (as the host tokenizer treats it
outside strings).  The fuel argument is only a structural-recursion
device; every step consumes at least one character, so the input length
supplied by `tokenize` never runs out. -/
def tokenizeF : Nat → List Char → Option (List PyTok)
  | _, [] => some []
  | 0, _ :: _ => Option.none
  | fuel + 1, c :: cs =>
    if isPySpace c then tokenizeF fuel cs
    else if c = '#' then some []
    else if c = '+' then Option.map (fun ts => PyTok.plus :: ts) (tokenizeF fuel cs)
    else if c = '>' then Option.map (fun ts => PyTok.gt :: ts) (tokenizeF fuel cs)
    else if c.isDigit then
      Option.map
        (fun ts => PyTok.num (natOfDigits (c :: List.takeWhile Char.isDigit cs)) :: ts)
        (tokenizeF fuel (List.dropWhile Char.isDigit cs))
    else if isWordChar c then
      Option.map
        (fun ts => PyTok.name (String.mk (c :: List.takeWhile isWordChar cs)) :: ts)
        (tokenizeF fuel (List.dropWhile isWordChar cs))
    else Option.none

/-- Tokenizer for the modelled expression fragment. -/
def tokenize (l : List Char) : Option (List PyTok) :=
  tokenizeF l.length l

/-- Coercion of a value to an integer for arithmetic, as the host does
(`bool` is an `int` subtype; `None` does not coerce). -/
def pyArithInt : PyVal → Option Int
  | .int n => some n
  | .bool b => some (if b then 1 else 0)
  | .noneV => Option.none

/-- Host `+` on the modelled values: integer addition, `TypeError` when
an operand is `None`. -/
def pyAdd (a b : PyVal) : Except Err PyVal :=
  match pyArithInt a, pyArithInt b with
  | some x, some y => .ok (.int (x + y))
  | _, _ => .error .evalTypeError

/-- Host `>` on the modelled values (Python 2 ordering: `None` compares
below every number, comparisons never fail). -/
def pyGt (a b : PyVal) : PyVal :=
  match pyArithInt a, pyArithInt b with
  | some x, some y => .bool (decide (x > y))
  | some _, Option.none => .bool true
  | Option.none, some _ => .bool false
  | Option.none, Option.none => .bool false

/-- Evaluation of a single atom token against the environment snapshot;
an unknown name raises `NameError` as in the host. -/
def evalAtom (d : Defs) : PyTok → Except Err PyVal
  | .num n => .ok (.int (Int.ofNat n))
  | .name s =>
    match lookupDef d s with
    | some v => .ok v
    | Option.none => .error (.nameError s)
  | _ => .error .badExpr

/-- Left-to-right evaluation of a `+` chain continuing from `acc`. -/
def evalAddChain (d : Defs) (acc : PyVal) : List PyTok → Except Err (PyVal × List PyTok)
  | .plus :: t :: ts =>
    match evalAtom d t with
    | .error e => .error e
    | .ok v =>
      match pyAdd acc v with
      | .error e => .error e
      | .ok s => evalAddChain d s ts
  | ts => .ok (acc, ts)

/-- Evaluation of a token list: an additive chain optionally compared
with `>` to a second additive chain. -/
def evalToks (d : Defs) : List PyTok → Except Err PyVal
  | [] => .error .badExpr
  | t :: ts =>
    match evalAtom d t with
    | .error e => .error e
    | .ok a =>
      match evalAddChain d a ts with
      | .error e => .error e
      | .ok (l, rest) =>
        match rest with
        | [] => .ok l
        | .gt :: t2 :: ts2 =>
          match evalAtom d t2 with
          | .error e => .error e
          | .ok b =>
            match evalAddChain d b ts2 with
            | .error e => .error e
            | .ok (r, rest2) =>
              match rest2 with
              | [] => .ok (pyGt l r)
              | _ => .error .badExpr
        | _ => .error .badExpr

/-- Model of the source's `_eval`: the host's `eval` of the expression
string against a snapshot copy of `defines` plus the builtins.  The
snapshot means evaluation never mutates `defines`, so the model is a
pure function.  It covers the expression forms the engine's documented
behaviour exercises: integer literals, defined names, `+`, `>` and
trailing `#` comments. -/
def pyEval (d : Defs) (expr : List Char) : Except Err PyVal :=
  match tokenize expr with
  | Option.none => .error .badExpr
  | some ts => evalToks d ts

/-- The argument the DEFINE handler passes to `_eval` is `groups[1]`,
which is `None` when no `=expr` was written; the host's `eval(None)`
raises `TypeError: eval() arg 1 must be a string or code object`. -/
def pyEvalArg (d : Defs) : Option (List Char) → Except Err PyVal
  | Option.none => .error .evalArgNone
  | some e => pyEval d e

/-- State of the scanning loop: the conditional stack (top at the list
head, frames are `(emission value before the block, opening line
number)`), the current emission value, the definitions mapping, and the
1-based number of the next line. -/
structure PState where
  stack : List (PyVal × Nat)
  emit : PyVal
  defs : Defs
  lineno : Nat
deriving DecidableEq

/-- One iteration of the loop body on one line, except for the line
counter bookkeeping (`run1` adds it).  Returns the successor state and
the fragments written to `outfile`. -/
def step1 (s : PState) (line : String) : Except Err (PState × List String) :=
  match classify line with
  | .textL =>
    .ok (s, if truthy s.emit then [line] else [])
  | .ifL e =>
    -- enter(); emit = stack[-1][0] and _eval(...): `and` short-circuits,
    -- so the expression is only evaluated when the old emit is truthy.
    if truthy s.emit then
      match pyEval s.defs e with
      | .error er => .error er
      | .ok v => .ok ({ s with stack := (s.emit, s.lineno) :: s.stack, emit := v }, [])
    else .ok ({ s with stack := (s.emit, s.lineno) :: s.stack }, [])
  | .elifL =>
    match s.stack with
    | [] => .error (.unexpectedContinuation s.lineno)
    | (t, _) :: _ =>
      if truthy s.emit then .ok (s, [])
      else if truthy t then
        -- emit = stack[-1][0] and _eval(_ELIF(line).group(1)): the _ELIF
        -- pattern has no group, so group(1) raises IndexError here.
        .error .noSuchGroup
      else .ok ({ s with emit := t }, [])
  | .elseL =>
    match s.stack with
    | [] => .error (.unexpectedContinuation s.lineno)
    | (t, _) :: _ =>
      .ok ({ s with emit := pyAnd t (.bool (!truthy s.emit)) }, [])
  | .endifL =>
    match s.stack with
    | [] => .error (.unexpectedContinuation s.lineno)
    | (t, _) :: rest =>
      -- the try/except IndexError around stack.pop() is dead code: the
      -- empty-stack case was already raised above.
      .ok ({ s with stack := rest, emit := t }, [])
  | .ifdefL n =>
    .ok ({ s with stack := (s.emit, s.lineno) :: s.stack,
                  emit := pyAnd s.emit (.bool (hasDef s.defs (String.mk n))) }, [])
  | .ifndefL n =>
    .ok ({ s with stack := (s.emit, s.lineno) :: s.stack,
                  emit := pyAnd s.emit (.bool (!hasDef s.defs (String.mk n))) }, [])
  | .defineL n oe =>
    if truthy s.emit then
      -- groups = _DEFINE(line).groups() is always a 2-tuple, so the
      -- source's `len(groups) == 1` test is never true and the value is
      -- always `_eval(groups[1])`, even when group 2 is None.
      match pyEvalArg s.defs oe with
      | .error er => .error er
      | .ok v => .ok ({ s with defs := setDef s.defs (String.mk n) v }, [])
    else .ok (s, [])
  | .undefL n =>
    if truthy s.emit then
      match delDef s.defs (String.mk n) with
      | Option.none => .error (.keyError (String.mk n))
      | some d => .ok ({ s with defs := d }, [])
    else .ok (s, [])
  | .unknownL => .error (.unknownDirective s.lineno)

/-- One full loop iteration: the body plus the `enumerate` line-counter
advance. -/
def run1 (s : PState) (line : String) : Except Err (PState × List String) :=
  match step1 s line with
  | .error e => .error e
  | .ok (s1, out) => .ok ({ s1 with lineno := s.lineno + 1 }, out)

/-- The loop over all input lines, concatenating everything written. -/
def runLines (s : PState) : List String → Except Err (PState × List String)
  | [] => .ok (s, [])
  | l :: ls =>
    match run1 s l with
    | .error e => .error e
    | .ok (s1, o1) =>
      match runLines s1 ls with
      | .error e => .error e
      | .ok (s2, o2) => .ok (s2, o1 ++ o2)

/-- Initial loop state: empty stack, emission `True`, caller's
definitions, line counter starting at 1. -/
def initState (d : Defs) : PState :=
  { stack := [], emit := .bool true, defs := d, lineno := 1 }

/-- The source's `preprocess(infile, outfile, defines)`: run the loop
from the initial state, then fail if conditional blocks are still open;
on success return the written lines and the final definitions (the
mapping is mutated in place in the source, so its final state is the
caller-observable result). -/
def preprocess (lines : List String) (d : Defs) : Except Err (List String × Defs) :=
  match runLines (initState d) lines with
  | .error e => .error e
  | .ok (s, out) => if s.stack = [] then .ok (out, s.defs) else .error (.blocksOpen s.stack)

/-- Python repr of the values stored in conditional frames. -/
def pyReprVal : PyVal → String
  | .noneV => "None"
  | .bool b => if b then "True" else "False"
  | .int n => toString n

/-- Python repr of one conditional frame (an `(emit, lineno)` tuple). -/
def frameRepr (f : PyVal × Nat) : String :=
  "(" ++ pyReprVal f.1 ++ ", " ++ toString f.2 ++ ")"

/-- Python repr of a list of frames, without the enclosing brackets. -/
def framesReprCore : List (PyVal × Nat) → String
  | [] => ""
  | [f] => frameRepr f
  | f :: g :: rest => frameRepr f ++ ", " ++ framesReprCore (g :: rest)

/-- Python repr of a list of frames. -/
def stackRepr (stk : List (PyVal × Nat)) : String :=
  "[" ++ framesReprCore stk ++ "]"

/-- Human-readable message of each error, mirroring the `%`-format
strings of the source (for `PreprocessorError`s) and the host's standard
exception texts.  The conditional stack is printed bottom-first, as the
Python list repr does (the model keeps the top at the head), and the
unknown-directive message elides the `%r` of the match object, which in
the host shows only the object's memory address. -/
def errMsg : Err → String
  | .unexpectedContinuation n => toString n ++ ": Unexpected conditional block continuation"
  | .unknownDirective n => toString n ++ ": Unknown directive"
  | .blocksOpen stk =>
    "Blocks still open at end of input (block starting line): " ++ stackRepr stk.reverse
  | .noSuchGroup => "no such group"
  | .evalArgNone => "eval() arg 1 must be a string or code object"
  | .keyError k => k
  | .nameError k => "name " ++ k ++ " is not defined"
  | .badExpr => "invalid syntax"
  | .evalTypeError => "unsupported operand type(s)"

/-- Whether the line opens a conditional block (IF / IFDEF / IFNDEF). -/
def isOpening (l : String) : Bool :=
  match classify l with
  | .ifL _ => true
  | .ifdefL _ => true
  | .ifndefL _ => true
  | _ => false

/-- Whether the line continues or ends a conditional block
(ELIF / ELSE / ENDIF) — the directives requiring a non-empty stack. -/
def isContinuation (l : String) : Bool :=
  match classify l with
  | .elifL => true
  | .elseL => true
  | .endifL => true
  | _ => false

/-- Whether the line is a DEFINE or UNDEF/UNDEFINE directive. -/
def isDefineOrUndef (l : String) : Bool :=
  match classify l with
  | .defineL _ _ => true
  | .undefL _ => true
  | _ => false

/-- Whether no line of the input matches the directive prefix. -/
def noDirectives (ls : List String) : Bool :=
  ls.all (fun l => (prefixMatch l.data).isNone)

/-- All frames on the stack hold truthy emission values. -/
def allTruthyB (stk : List (PyVal × Nat)) : Bool :=
  stk.all (fun f => truthy f.1)

/-- Monotonicity of the stored emission values: a truthy frame can only
sit above truthy frames (a block can only be entered with a truthy
before-state when every enclosing block was, too). -/
def monoB : List (PyVal × Nat) → Bool
  | [] => true
  | f :: rest => (!truthy f.1 || allTruthyB rest) && monoB rest

/-- Reachability invariant of the loop state: the stack is monotone and
the current emission value can only be truthy when every stored
before-state is. -/
def invB (s : PState) : Bool :=
  monoB s.stack && (!truthy s.emit || allTruthyB s.stack)

/-- During a run of the given lines the conditional stack always stays
strictly deeper than `d` frames — i.e. the frame at depth `d` is never
popped (its block's ENDIF is not reached). -/
def alwaysDeeperB (d : Nat) (s : PState) : List String → Bool
  | [] => decide (d < s.stack.length)
  | l :: ls =>
    decide (d < s.stack.length) &&
      (match run1 s l with
       | .error _ => true
       | .ok (s1, _) => alwaysDeeperB d s1 ls)

/-- Lines that stay within one IF/ELIF/ELSE/ENDIF chain's branches at
the chain's own nesting depth: chain continuations, definition
directives and plain text, but no block openings or ENDIF (and no
unknown directives). -/
def chainLine (l : String) : Bool :=
  match classify l with
  | .elifL => true
  | .elseL => true
  | .defineL _ _ => true
  | .undefL _ => true
  | .textL => true
  | _ => false

/-- Number of ELSE directives among the lines. -/
def countElse (ls : List String) : Nat :=
  ls.countP (fun l => match classify l with | .elseL => true | _ => false)

/-- Whether all whitespace characters of a run are non-newline ones. -/
def wsNonNl (ws : List Char) : Bool :=
  ws.all (fun c => isPySpace c && !(c = '\n'))

/-- During a run of the given lines the emission value is never turned
from falsy to truthy by any processed line (a run that aborts with an
error trivially satisfies the rest). -/
def noFalseToTrue (s : PState) : List String → Prop
  | [] => True
  | l :: ls => ∀ s1 out, run1 s l = .ok (s1, out) →
      ((truthy s.emit = false → truthy s1.emit = false) ∧ noFalseToTrue s1 ls)

/-- An apostrophe character, to spell the plain-text lines of the
documented example. -/
def q : String := String.mk [Char.ofNat 39]

/-- The example input of the documented behaviour (spec §8 / the
module's doctest), one string per line. -/
def exLines : List String :=
  [ "##IFNDEF baz\n"
  , "##  DEFINE baz = 1 + 1\n"
  , "##ELSE\n"
  , "##  DEFINE baz = baz + 1\n"
  , "##ENDIF\n"
  , "##IFDEF foo\n"
  , "print " ++ q ++ "foo" ++ q ++ "\n"
  , "##UNDEF foo\n"
  , "##ELSE\n"
  , "print " ++ q ++ "bar" ++ q ++ "\n"
  , "##ENDIF\n"
  , "##IF baz > 2\n"
  , "print " ++ q ++ "baz" ++ q ++ "\n"
  , "##ENDIF\n" ]

/-! Basic lemmas about one loop iteration. -/

/-- Truthiness of Python `and` is boolean conjunction. -/
theorem truthy_pyAnd (a b : PyVal) : truthy (pyAnd a b) = (truthy a && truthy b) := by
  unfold pyAnd
  by_cases h : truthy a <;> simp [h]

/-- A successful iteration advances the line counter by exactly one. -/
theorem run1_lineno {s : PState} {l : String} {s1 : PState} {o : List String}
    (h : run1 s l = .ok (s1, o)) : s1.lineno = s.lineno + 1 := by
  unfold run1 at h
  cases h1 : step1 s l with
  | error e => rw [h1] at h; exact absurd h (by simp)
  | ok p =>
    rw [h1] at h
    simp only [Except.ok.injEq, Prod.mk.injEq] at h
    rw [← h.1]

/-- A successful iteration leaves output `[]` when emission is falsy
(directives write nothing; suppressed text is dropped). -/
theorem run1_out_nil {s : PState} {l : String} {s1 : PState} {o : List String}
    (he : truthy s.emit = false) (h : run1 s l = .ok (s1, o)) : o = [] := by
  unfold run1 at h
  cases h1 : step1 s l with
  | error e => rw [h1] at h; exact absurd h (by simp)
  | ok p =>
    rw [h1] at h
    simp only [Except.ok.injEq, Prod.mk.injEq] at h
    obtain ⟨q, o'⟩ := p
    unfold step1 at h1
    split at h1 <;> (repeat' split at h1) <;> simp_all

/-- Unfolding of `allTruthyB` over a cons cell. -/
theorem allTruthyB_cons (f : PyVal × Nat) (rest : List (PyVal × Nat)) :
    allTruthyB (f :: rest) = (truthy f.1 && allTruthyB rest) := by
  simp [allTruthyB]

/-- Unfolding of `monoB` over a cons cell. -/
theorem monoB_cons (f : PyVal × Nat) (rest : List (PyVal × Nat)) :
    monoB (f :: rest) = ((!truthy f.1 || allTruthyB rest) && monoB rest) := rfl

/-- A successful iteration either leaves the stack unchanged, pushes
the frame `(current emit, current lineno)`, or pops the top frame. -/
theorem run1_stack_shape {s : PState} {l : String} {s1 : PState} {o : List String}
    (h : run1 s l = .ok (s1, o)) :
    s1.stack = s.stack ∨ s1.stack = (s.emit, s.lineno) :: s.stack ∨
      ∃ f, s.stack = f :: s1.stack := by
  unfold run1 at h
  cases h1 : step1 s l with
  | error e => rw [h1] at h; exact absurd h (by simp)
  | ok p =>
    rw [h1] at h
    simp only [Except.ok.injEq, Prod.mk.injEq] at h
    obtain ⟨q, o'⟩ := p
    obtain ⟨hq, -⟩ := h
    have hqs : s1.stack = q.stack := by rw [← hq]
    rw [hqs]
    unfold step1 at h1
    split at h1
    · simp only [Except.ok.injEq, Prod.mk.injEq] at h1
      left; rw [← h1.1]
    · split at h1
      · split at h1
        · exact absurd h1 (by simp)
        · simp only [Except.ok.injEq, Prod.mk.injEq] at h1
          right; left; rw [← h1.1]
      · simp only [Except.ok.injEq, Prod.mk.injEq] at h1
        right; left; rw [← h1.1]
    · split at h1
      · exact absurd h1 (by simp)
      · split at h1
        · simp only [Except.ok.injEq, Prod.mk.injEq] at h1
          left; rw [← h1.1]
        · split at h1
          · exact absurd h1 (by simp)
          · simp only [Except.ok.injEq, Prod.mk.injEq] at h1
            left; rw [← h1.1]
    · split at h1
      · exact absurd h1 (by simp)
      · simp only [Except.ok.injEq, Prod.mk.injEq] at h1
        left; rw [← h1.1]
    · split at h1
      · exact absurd h1 (by simp)
      · rename_i t n tail heq
        simp only [Except.ok.injEq, Prod.mk.injEq] at h1
        right; right
        refine ⟨(t, n), ?_⟩
        rw [← h1.1]
        exact heq
    · simp only [Except.ok.injEq, Prod.mk.injEq] at h1
      right; left; rw [← h1.1]
    · simp only [Except.ok.injEq, Prod.mk.injEq] at h1
      right; left; rw [← h1.1]
    · split at h1
      · split at h1
        · exact absurd h1 (by simp)
        · simp only [Except.ok.injEq, Prod.mk.injEq] at h1
          left; rw [← h1.1]
      · simp only [Except.ok.injEq, Prod.mk.injEq] at h1
        left; rw [← h1.1]
    · split at h1
      · split at h1
        · exact absurd h1 (by simp)
        · simp only [Except.ok.injEq, Prod.mk.injEq] at h1
          left; rw [← h1.1]
      · simp only [Except.ok.injEq, Prod.mk.injEq] at h1
        left; rw [← h1.1]
    · exact absurd h1 (by simp)

/-- While the stack holds a falsy frame the emission value is falsy (a
consequence of the invariant `invB`). -/
theorem emit_falsy_of_falsy_frame {s : PState} {f : PyVal × Nat}
    (hi : invB s = true) (hf : f ∈ s.stack) (hfv : truthy f.1 = false) :
    truthy s.emit = false := by
  by_contra hc
  rw [Bool.not_eq_false] at hc
  have hi' := hi
  simp only [invB, Bool.and_eq_true] at hi'
  have he := hi'.2
  rw [hc] at he
  simp only [Bool.not_true, Bool.false_or, allTruthyB, List.all_eq_true] at he
  have hft := he f hf
  rw [hfv] at hft
  exact absurd hft (by decide)

/-- The invariant `invB` is preserved by every successful iteration. -/
theorem run1_inv {s : PState} {l : String} {s1 : PState} {o : List String}
    (hi : invB s = true) (h : run1 s l = .ok (s1, o)) : invB s1 = true := by
  have hi' := hi
  simp only [invB, Bool.and_eq_true] at hi'
  have hm := hi'.1
  have he := hi'.2
  have hall : truthy s.emit = true → allTruthyB s.stack = true := by
    intro hh; simpa [hh] using he
  unfold run1 at h
  cases h1 : step1 s l with
  | error e => rw [h1] at h; exact absurd h (by simp)
  | ok p =>
    rw [h1] at h
    simp only [Except.ok.injEq, Prod.mk.injEq] at h
    obtain ⟨q, o'⟩ := p
    obtain ⟨hq, -⟩ := h
    have hlift : invB q = true → invB s1 = true := by
      intro hqq; rw [← hq]; exact hqq
    apply hlift
    unfold step1 at h1
    split at h1
    · -- textL
      simp only [Except.ok.injEq, Prod.mk.injEq] at h1
      rw [← h1.1]; exact hi
    · -- ifL
      split at h1
      · rename_i hem
        split at h1
        · exact absurd h1 (by simp)
        · simp only [Except.ok.injEq, Prod.mk.injEq] at h1
          rw [← h1.1]
          simp [invB, monoB_cons, allTruthyB_cons, hm, hem, hall hem]
      · rename_i hem
        have hem' : truthy s.emit = false := by simpa using hem
        simp only [Except.ok.injEq, Prod.mk.injEq] at h1
        rw [← h1.1]
        simp [invB, monoB_cons, allTruthyB_cons, hm, hem']
    · -- elifL
      split at h1
      · exact absurd h1 (by simp)
      · rename_i t n tail heq
        split at h1
        · simp only [Except.ok.injEq, Prod.mk.injEq] at h1
          rw [← h1.1]; exact hi
        · split at h1
          · exact absurd h1 (by simp)
          · rename_i hemn htn
            have ht' : truthy t = false := by simpa using htn
            simp only [Except.ok.injEq, Prod.mk.injEq] at h1
            rw [← h1.1]
            simp [invB, hm, ht']
    · -- elseL
      split at h1
      · exact absurd h1 (by simp)
      · rename_i t n tail heq
        simp only [Except.ok.injEq, Prod.mk.injEq] at h1
        rw [← h1.1]
        rw [heq] at hm
        simp only [monoB_cons, Bool.and_eq_true] at hm
        by_cases ht : truthy t = true
        · have htail : allTruthyB tail = true := by simpa [ht] using hm.1
          simp [invB, monoB_cons, allTruthyB_cons, truthy_pyAnd, heq, ht, htail, hm.2]
        · have ht' : truthy t = false := by simpa using ht
          simp [invB, monoB_cons, allTruthyB_cons, truthy_pyAnd, heq, ht', hm.1, hm.2]
    · -- endifL
      split at h1
      · exact absurd h1 (by simp)
      · rename_i t n tail heq
        simp only [Except.ok.injEq, Prod.mk.injEq] at h1
        rw [← h1.1]
        rw [heq] at hm
        simp only [monoB_cons, Bool.and_eq_true] at hm
        simp [invB, hm.1, hm.2]
    · -- ifdefL
      simp only [Except.ok.injEq, Prod.mk.injEq] at h1
      rw [← h1.1]
      by_cases hem : truthy s.emit = true
      · simp [invB, monoB_cons, allTruthyB_cons, truthy_pyAnd, hm, he, hem, hall hem]
      · have hem' : truthy s.emit = false := by simpa using hem
        simp [invB, monoB_cons, allTruthyB_cons, truthy_pyAnd, hm, hem']
    · -- ifndefL
      simp only [Except.ok.injEq, Prod.mk.injEq] at h1
      rw [← h1.1]
      by_cases hem : truthy s.emit = true
      · simp [invB, monoB_cons, allTruthyB_cons, truthy_pyAnd, hm, he, hem, hall hem]
      · have hem' : truthy s.emit = false := by simpa using hem
        simp [invB, monoB_cons, allTruthyB_cons, truthy_pyAnd, hm, hem']
    · -- defineL
      split at h1
      · split at h1
        · exact absurd h1 (by simp)
        · simp only [Except.ok.injEq, Prod.mk.injEq] at h1
          rw [← h1.1]; exact hi
      · simp only [Except.ok.injEq, Prod.mk.injEq] at h1
        rw [← h1.1]; exact hi
    · -- undefL
      split at h1
      · split at h1
        · exact absurd h1 (by simp)
        · simp only [Except.ok.injEq, Prod.mk.injEq] at h1
          rw [← h1.1]; exact hi
      · simp only [Except.ok.injEq, Prod.mk.injEq] at h1
        rw [← h1.1]; exact hi
    · -- unknownL
      exact absurd h1 (by simp)

/-- Equation of `runLines` on the empty list. -/
theorem runLines_nil (s : PState) : runLines s [] = .ok (s, []) := rfl

/-- Equation of `runLines` on a cons cell. -/
theorem runLines_cons (s : PState) (l : String) (ls : List String) :
    runLines s (l :: ls) =
      match run1 s l with
      | .error e => .error e
      | .ok (s1, o1) =>
        match runLines s1 ls with
        | .error e => .error e
        | .ok (s2, o2) => .ok (s2, o1 ++ o2) := rfl

/-- A successful run advances the line counter by the number of lines. -/
theorem runLines_lineno (ls : List String) : ∀ {s s1 : PState} {o : List String},
    runLines s ls = .ok (s1, o) → s1.lineno = s.lineno + ls.length := by
  induction ls with
  | nil =>
    intro s s1 o h
    rw [runLines_nil] at h
    simp only [Except.ok.injEq, Prod.mk.injEq] at h
    rw [← h.1]; rfl
  | cons l ls ih =>
    intro s s1 o h
    rw [runLines_cons] at h
    split at h
    · exact absurd h (by simp)
    · rename_i sm o1 heq1
      split at h
      · exact absurd h (by simp)
      · rename_i s2 o2 heq2
        simp only [Except.ok.injEq, Prod.mk.injEq] at h
        have hln2 := ih heq2
        have hln1 := run1_lineno heq1
        rw [← h.1, hln2, hln1, List.length_cons]
        omega

/-- Splitting a run over an appended list of lines. -/
theorem runLines_append (xs : List String) : ∀ (s : PState) (ys : List String),
    runLines s (xs ++ ys) =
      match runLines s xs with
      | .error e => .error e
      | .ok (s1, o1) =>
        match runLines s1 ys with
        | .error e => .error e
        | .ok (s2, o2) => .ok (s2, o1 ++ o2) := by
  induction xs with
  | nil =>
    intro s ys
    simp only [List.nil_append, runLines_nil]
    cases h : runLines s ys with
    | error e => rfl
    | ok p => obtain ⟨s2, o2⟩ := p; simp
  | cons x xs ih =>
    intro s ys
    simp only [List.cons_append, runLines_cons]
    cases h1 : run1 s x with
    | error e => rfl
    | ok p =>
      obtain ⟨s1, o1⟩ := p
      simp only
      rw [ih s1 ys]
      cases h2 : runLines s1 xs with
      | error e => rfl
      | ok p2 =>
        obtain ⟨s2, o2⟩ := p2
        simp only
        cases h3 : runLines s2 ys with
        | error e => rfl
        | ok p3 =>
          obtain ⟨s3, o3⟩ := p3
          simp [List.append_assoc]

/-- The depth bound of `alwaysDeeperB` holds at the state it starts in. -/
theorem alwaysDeeper_lt {d : Nat} {s : PState} {ls : List String}
    (h : alwaysDeeperB d s ls = true) : d < s.stack.length := by
  cases ls with
  | nil => unfold alwaysDeeperB at h; exact of_decide_eq_true h
  | cons l ls =>
    unfold alwaysDeeperB at h
    exact of_decide_eq_true (Bool.and_eq_true _ _ ▸ h).1

/-- The predicate `alwaysDeeperB` propagates through one successful
iteration. -/
theorem alwaysDeeper_step {d : Nat} {s : PState} {l : String} {ls : List String}
    {s1 : PState} {o : List String}
    (h : alwaysDeeperB d s (l :: ls) = true) (h1 : run1 s l = .ok (s1, o)) :
    alwaysDeeperB d s1 ls = true := by
  unfold alwaysDeeperB at h
  have h2 := (Bool.and_eq_true _ _ ▸ h).2
  rw [h1] at h2
  exact h2

/-! Claim theorems. -/

/-- C1: the claim says an ELIF reached with a non-empty stack and a
falsy emission flag evaluates its expression and sets the flag to
(stored before-flag AND expression truthy), raising no error beyond the
evaluator's own.  The code cannot do this: the `_ELIF` regex has no
capture group, so `_ELIF(line).group(1)` raises `IndexError: no such
group` before any evaluation whenever the stored before-flag is truthy.
This theorem runs the failing input `##IF 0` / `##ELIF 1` / `##ENDIF`
(stack non-empty and emission falsy at line 2) and shows the pass aborts
with that `IndexError` instead of evaluating the expression. -/
theorem c1_elif_raises_index_error :
    preprocess ["##IF 0\n", "##ELIF 1\n", "##ENDIF\n"] [] = .error .noSuchGroup := by
  rfl

/-- C2: the claim says a DEFINE with no `=expr` part, processed while
emission is truthy, binds the name to the no-value marker without
invoking the evaluator.  The code cannot do this: `groups()` of the
`_DEFINE` regex is always a 2-tuple, so the `len(groups) == 1` branch
that would bind `None` is dead and the handler always calls
`_eval(groups[1])`, which is `eval(None, ...)` and raises `TypeError`.
This theorem runs the failing input `##DEFINE foo` from an empty mapping
and shows the pass aborts with that `TypeError`. -/
theorem c2_define_no_value_raises_type_error :
    preprocess ["##DEFINE foo\n"] [] = .error .evalArgNone := by
  rfl

/-- C3 counterexample: the claim says that once a branch of a chain has
emitted, no later ELIF/ELSE of the same chain ever makes the emission
flag true again before the matching ENDIF.  Input
`##IF 1` / `a` / `##ELSE` / `b` / `##ELSE` / `c` / `##ENDIF` refutes it:
the first branch emits (`a` is in the output), the first ELSE turns the
flag falsy, and the second ELSE of the same chain turns it truthy again
(first conjunct: the state after line 5 has emission `True` with the
chain's frame still on the stack), so `c` is emitted before the ENDIF
(second conjunct). -/
theorem c3_counterexample :
    runLines (initState []) ["##IF 1\n", "a\n", "##ELSE\n", "b\n", "##ELSE\n"] =
      .ok (⟨[(.bool true, 1)], .bool true, [], 6⟩, ["a\n"]) ∧
    preprocess ["##IF 1\n", "a\n", "##ELSE\n", "b\n", "##ELSE\n", "c\n", "##ENDIF\n"] [] =
      .ok (["a\n", "c\n"], []) := by
  exact ⟨rfl, rfl⟩

/-- C4: running `preprocess` on the documented example input with an
initially empty definitions mapping writes exactly `print 'bar'\n` and
leaves `baz` bound to 2; a second run over the same input with
definitions `{'baz': 2, 'foo': None}` writes exactly
`print 'foo'\nprint 'baz'\n`, leaves `baz` bound to 3, and removes
`foo` from the mapping.  (The example has 14 lines; the claim's
"15-line" count is off by one, but the input is the spec's example
verbatim.) -/
theorem c4_documented_example :
    preprocess exLines [] =
      .ok (["print " ++ q ++ "bar" ++ q ++ "\n"], [("baz", .int 2)]) ∧
    preprocess exLines [("baz", .int 2), ("foo", .noneV)] =
      .ok (["print " ++ q ++ "foo" ++ q ++ "\n", "print " ++ q ++ "baz" ++ q ++ "\n"],
           [("baz", .int 3)]) := by
  exact ⟨rfl, rfl⟩

/-- Helper for C5: over lines with no directive prefix and a truthy
emission value, the loop copies every line and only advances the line
counter. -/
theorem runLines_text (ls : List String) : ∀ (s : PState),
    truthy s.emit = true → noDirectives ls = true →
    runLines s ls = .ok ({ s with lineno := s.lineno + ls.length }, ls) := by
  induction ls with
  | nil => intro s h1 h2; rfl
  | cons l ls ih =>
    intro s h1 h2
    unfold noDirectives at h2
    simp only [List.all_cons, Bool.and_eq_true] at h2
    have hcl : classify l = .textL := by
      unfold classify
      rw [Option.isNone_iff_eq_none.mp h2.1]
    have hr1 : run1 s l = .ok ({ s with lineno := s.lineno + 1 }, [l]) := by
      unfold run1 step1
      rw [hcl]
      simp [h1]
    rw [runLines_cons, hr1]
    have hih := ih { s with lineno := s.lineno + 1 } h1 h2.2
    show (match runLines { s with lineno := s.lineno + 1 } ls with
          | .error e => Except.error e
          | .ok (s2, o2) => Except.ok (s2, [l] ++ o2)) =
        Except.ok ({ s with lineno := s.lineno + (l :: ls).length }, l :: ls)
    rw [hih]
    show Except.ok ({ s with lineno := s.lineno + 1 + ls.length }, [l] ++ ls) =
        Except.ok ({ s with lineno := s.lineno + (l :: ls).length }, l :: ls)
    have hlen : s.lineno + 1 + ls.length = s.lineno + (l :: ls).length := by
      simp only [List.length_cons]; omega
    rw [hlen]
    rfl

/-- C5: on inputs in which no line matches the directive prefix,
`preprocess` writes every line verbatim in order, so the output equals
the input, the definitions mapping is returned unchanged, and no error
is raised. -/
theorem c5_identity_passthrough (ls : List String) (d : Defs)
    (h : noDirectives ls = true) :
    preprocess ls d = .ok (ls, d) := by
  unfold preprocess
  rw [runLines_text ls (initState d) rfl h]
  rfl

/-- Witness for C5 at a concrete directive-free input. -/
theorem c5_identity_passthrough_witness :
    noDirectives ["hello world\n", "x = 1\n"] = true ∧
      preprocess ["hello world\n", "x = 1\n"] [] =
        .ok (["hello world\n", "x = 1\n"], []) :=
  ⟨by rfl, c5_identity_passthrough _ _ (by rfl)⟩

/-- C6: a DEFINE or UNDEF/UNDEFINE directive processed while the
emission value is falsy leaves the state untouched apart from the line
counter: the definitions mapping is exactly as before (no key added,
rebound or removed), nothing is written, and no error is raised — in
particular no expression is evaluated, since evaluation could only
surface as an error or a mapping change and the result is always this
exact success. -/
theorem c6_define_undef_suppressed (s : PState) (line : String)
    (hdu : isDefineOrUndef line = true)
    (he : truthy s.emit = false) :
    run1 s line = .ok ({ s with lineno := s.lineno + 1 }, []) := by
  unfold isDefineOrUndef at hdu
  unfold run1 step1
  cases hc : classify line
  case defineL n oe => simp [he]
  case undefL n => simp [he]
  all_goals rw [hc] at hdu
  all_goals simp at hdu

/-- Witness for C6 at a concrete suppressed DEFINE. -/
theorem c6_define_undef_suppressed_witness :
    isDefineOrUndef "##DEFINE x = 1\n" = true ∧
      truthy (PState.mk [(.bool true, 1)] (.bool false) [] 2).emit = false ∧
      run1 ⟨[(.bool true, 1)], .bool false, [], 2⟩ "##DEFINE x = 1\n" =
        .ok (⟨[(.bool true, 1)], .bool false, [], 3⟩, []) :=
  ⟨by rfl, by rfl, c6_define_undef_suppressed _ _ (by rfl) (by rfl)⟩

/-- Helper for C7: from a state satisfying the invariant whose stack
holds a falsy frame, a successful run during which that frame is never
popped writes nothing at all. -/
theorem c7_aux (ls : List String) : ∀ (s : PState) (front back : List (PyVal × Nat))
    (bv : PyVal) (ln : Nat) (s2 : PState) (outs : List String),
    invB s = true → s.stack = front ++ (bv, ln) :: back → truthy bv = false →
    alwaysDeeperB back.length s ls = true → runLines s ls = .ok (s2, outs) →
    outs = [] := by
  induction ls with
  | nil =>
    intro s front back bv ln s2 outs _ _ _ _ hrun
    rw [runLines_nil] at hrun
    simp only [Except.ok.injEq, Prod.mk.injEq] at hrun
    exact hrun.2.symm
  | cons l ls ih =>
    intro s front back bv ln s2 outs hi hstk hbv hdeep hrun
    rw [runLines_cons] at hrun
    split at hrun
    · exact absurd hrun (by simp)
    · rename_i s1 o1 heq1
      split at hrun
      · exact absurd hrun (by simp)
      · rename_i s2' o2 heq2
        simp only [Except.ok.injEq, Prod.mk.injEq] at hrun
        have hmem : ((bv, ln) : PyVal × Nat) ∈ s.stack := by
          rw [hstk]
          exact List.mem_append_right _ (List.mem_cons_self _ _)
        have hemit : truthy s.emit = false := emit_falsy_of_falsy_frame hi hmem hbv
        have ho1 : o1 = [] := run1_out_nil hemit heq1
        have hi1 : invB s1 = true := run1_inv hi heq1
        have hdeep1 : alwaysDeeperB back.length s1 ls = true :=
          alwaysDeeper_step hdeep heq1
        have hlt1 : back.length < s1.stack.length := alwaysDeeper_lt hdeep1
        have hsuffix : ∃ front1, s1.stack = front1 ++ (bv, ln) :: back := by
          rcases run1_stack_shape heq1 with hsh | hsh | ⟨f, hsh⟩
          · refine ⟨front, ?_⟩; rw [hsh, hstk]
          · refine ⟨(s.emit, s.lineno) :: front, ?_⟩; rw [hsh, hstk]; rfl
          · rw [hstk] at hsh
            cases front with
            | nil =>
              simp only [List.nil_append, List.cons.injEq] at hsh
              rw [hsh.2] at hlt1
              exact absurd hlt1 (lt_irrefl _)
            | cons f0 front1 =>
              simp only [List.cons_append, List.cons.injEq] at hsh
              exact ⟨front1, hsh.2.symm⟩
        obtain ⟨front1, hstk1⟩ := hsuffix
        have ho2 : o2 = [] := ih s1 front1 back bv ln s2' o2 hi1 hstk1 hbv hdeep1 heq2
        rw [← hrun.2, ho1, ho2]
        rfl

/-- C7: a conditional block opened by IF, IFDEF or IFNDEF while the
emission value is falsy never lets any plain-text line through: neither
the opening line nor anything processed while the pushed frame remains
on the stack (i.e. inside the block, nested sub-blocks included) is
written, regardless of how any inner condition evaluates.  The
hypothesis `invB` holds for every state reachable from the initial one
(`run1_inv`), and `alwaysDeeperB` states that the lines under
consideration stay inside the opened block. -/
theorem c7_nested_suppression (s s1 s2 : PState) (line : String) (ls : List String)
    (o1 outs : List String)
    (hi : invB s = true) (hemit : truthy s.emit = false)
    (hopen : isOpening line = true)
    (h1 : run1 s line = .ok (s1, o1))
    (hdeep : alwaysDeeperB s.stack.length s1 ls = true)
    (h2 : runLines s1 ls = .ok (s2, outs)) :
    o1 = [] ∧ outs = [] := by
  have ho1 : o1 = [] := run1_out_nil hemit h1
  have hi1 : invB s1 = true := run1_inv hi h1
  have hstk1 : s1.stack = (s.emit, s.lineno) :: s.stack := by
    unfold run1 at h1
    cases hst : step1 s line with
    | error e => rw [hst] at h1; exact absurd h1 (by simp)
    | ok p =>
      rw [hst] at h1
      simp only [Except.ok.injEq, Prod.mk.injEq] at h1
      obtain ⟨q, o'⟩ := p
      obtain ⟨hq, -⟩ := h1
      have hqs : s1.stack = q.stack := by rw [← hq]
      rw [hqs]
      unfold isOpening at hopen
      unfold step1 at hst
      split at hst
      · rename_i heq; rw [heq] at hopen; exact absurd hopen (by simp)
      · split at hst
        · rename_i hem
          exact absurd hem (by simp [hemit])
        · simp only [Except.ok.injEq, Prod.mk.injEq] at hst
          rw [← hst.1]
      · rename_i heq; rw [heq] at hopen; exact absurd hopen (by simp)
      · rename_i heq; rw [heq] at hopen; exact absurd hopen (by simp)
      · rename_i heq; rw [heq] at hopen; exact absurd hopen (by simp)
      · simp only [Except.ok.injEq, Prod.mk.injEq] at hst
        rw [← hst.1]
      · simp only [Except.ok.injEq, Prod.mk.injEq] at hst
        rw [← hst.1]
      · rename_i heq; rw [heq] at hopen; exact absurd hopen (by simp)
      · rename_i heq; rw [heq] at hopen; exact absurd hopen (by simp)
      · rename_i heq; rw [heq] at hopen; exact absurd hopen (by simp)
  refine ⟨ho1, c7_aux ls s1 [] s.stack s.emit s.lineno s2 outs hi1 ?_ hemit hdeep h2⟩
  rw [hstk1]
  rfl

/-- Witness for C7: a block opened by `##IF 1` under falsy emission,
containing one text line, writes nothing. -/
theorem c7_nested_suppression_witness :
    invB ⟨[], .bool false, [], 1⟩ = true ∧
      truthy (PState.mk [] (.bool false) [] 1).emit = false ∧
      isOpening "##IF 1\n" = true ∧
      run1 ⟨[], .bool false, [], 1⟩ "##IF 1\n" =
        .ok (⟨[(.bool false, 1)], .bool false, [], 2⟩, []) ∧
      alwaysDeeperB 0 ⟨[(.bool false, 1)], .bool false, [], 2⟩ ["text\n"] = true ∧
      runLines ⟨[(.bool false, 1)], .bool false, [], 2⟩ ["text\n"] =
        .ok (⟨[(.bool false, 1)], .bool false, [], 3⟩, []) ∧
      ([] : List String) = [] ∧ ([] : List String) = [] :=
  ⟨by rfl, by rfl, by rfl, by rfl, by rfl, by rfl,
    c7_nested_suppression ⟨[], .bool false, [], 1⟩
      ⟨[(.bool false, 1)], .bool false, [], 2⟩
      ⟨[(.bool false, 1)], .bool false, [], 3⟩
      "##IF 1\n" ["text\n"] [] []
      (by rfl) (by rfl) (by rfl) (by rfl) (by rfl) (by rfl)⟩

/-- Helper for C3: over chain-internal lines (ELIF/ELSE/DEFINE/UNDEF or
plain text, so the conditional stack is untouched) whose chain frame
stores a truthy before-value, the emission value never flips from falsy
to truthy, provided the ELSE budget respects the generalised invariant:
at most one ELSE remains while emission is truthy, none once it is
falsy. -/
theorem c3_aux (ls : List String) : ∀ (s : PState) (v : PyVal) (ln : Nat)
    (rest : List (PyVal × Nat)),
    s.stack = (v, ln) :: rest → truthy v = true →
    ls.all chainLine = true →
    (truthy s.emit = true → countElse ls ≤ 1) →
    (truthy s.emit = false → countElse ls = 0) →
    noFalseToTrue s ls := by
  induction ls with
  | nil => intro s v ln rest _ _ _ _ _; exact trivial
  | cons l ls ih =>
    intro s v ln rest hstk hv hchain hbud1 hbud0
    simp only [List.all_cons, Bool.and_eq_true] at hchain
    intro s1 out h1
    unfold run1 at h1
    cases hst : step1 s l with
    | error e => rw [hst] at h1; exact absurd h1 (by simp)
    | ok p =>
      rw [hst] at h1
      simp only [Except.ok.injEq, Prod.mk.injEq] at h1
      obtain ⟨q, o'⟩ := p
      obtain ⟨hq, -⟩ := h1
      have hq_emit : s1.emit = q.emit := by rw [← hq]
      have hq_stack : s1.stack = q.stack := by rw [← hq]
      unfold step1 at hst
      split at hst
      · -- textL: state unchanged apart from the line counter
        rename_i heq
        simp only [Except.ok.injEq, Prod.mk.injEq] at hst
        obtain ⟨hqs, -⟩ := hst
        have hcnt : countElse (l :: ls) = countElse ls := by
          unfold countElse
          simp [List.countP_cons, heq]
        constructor
        · intro hf; rw [hq_emit, ← hqs]; exact hf
        · apply ih s1 v ln rest
          · rw [hq_stack, ← hqs]; exact hstk
          · exact hv
          · exact hchain.2
          · intro ht; have := hbud1 (by rwa [hq_emit, ← hqs] at ht); omega
          · intro ht; have := hbud0 (by rwa [hq_emit, ← hqs] at ht); omega
      · -- ifL: not a chain line
        rename_i heq
        exact absurd hchain.1 (by unfold chainLine; rw [heq]; simp)
      · -- elifL
        rename_i heq
        rw [hstk] at hst
        have hcnt : countElse (l :: ls) = countElse ls := by
          unfold countElse
          simp [List.countP_cons, heq]
        by_cases hem : truthy s.emit = true
        · simp only [hem, if_true] at hst
          simp only [Except.ok.injEq, Prod.mk.injEq] at hst
          obtain ⟨hqs, -⟩ := hst
          constructor
          · intro hf; rw [hem] at hf; exact absurd hf (by decide)
          · apply ih s1 v ln rest
            · rw [hq_stack, ← hqs]; exact hstk
            · exact hv
            · exact hchain.2
            · intro ht; have := hbud1 hem; omega
            · intro ht
              rw [hq_emit, ← hqs] at ht
              rw [hem] at ht
              exact absurd ht (by decide)
        · have hem' : truthy s.emit = false := by simpa using hem
          simp only [hem', hv, Bool.false_eq_true, if_false, if_true] at hst
          exact absurd hst (by simp)
      · -- elseL
        rename_i heq
        rw [hstk] at hst
        simp only at hst
        simp only [Except.ok.injEq, Prod.mk.injEq] at hst
        obtain ⟨hqs, -⟩ := hst
        have hcnt : countElse (l :: ls) = countElse ls + 1 := by
          unfold countElse
          simp [List.countP_cons, heq]
        by_cases hem : truthy s.emit = true
        · have hs1emit : truthy s1.emit = false := by
            rw [hq_emit, ← hqs]
            show truthy (pyAnd v (.bool (!truthy s.emit))) = false
            rw [truthy_pyAnd, hem]
            simp [hv, truthy]
          constructor
          · intro hf; rw [hem] at hf; exact absurd hf (by decide)
          · have h0 : countElse ls = 0 := by
              have := hbud1 hem; omega
            apply ih s1 v ln rest
            · rw [hq_stack, ← hqs]
            · exact hv
            · exact hchain.2
            · intro _; omega
            · intro _; exact h0
        · have hem' : truthy s.emit = false := by simpa using hem
          have := hbud0 hem'
          exfalso
          omega
      · -- endifL: not a chain line
        rename_i heq
        exact absurd hchain.1 (by unfold chainLine; rw [heq]; simp)
      · -- ifdefL: not a chain line
        rename_i heq
        exact absurd hchain.1 (by unfold chainLine; rw [heq]; simp)
      · -- ifndefL: not a chain line
        rename_i heq
        exact absurd hchain.1 (by unfold chainLine; rw [heq]; simp)
      · -- defineL
        rename_i nm oe heq
        have hcnt : countElse (l :: ls) = countElse ls := by
          unfold countElse
          simp [List.countP_cons, heq]
        by_cases hem : truthy s.emit = true
        · rw [if_pos hem] at hst
          cases hev : pyEvalArg s.defs oe with
          | error er => rw [hev] at hst; exact absurd hst (by simp)
          | ok vv =>
            rw [hev] at hst
            simp only [Except.ok.injEq, Prod.mk.injEq] at hst
            obtain ⟨hqs, -⟩ := hst
            constructor
            · intro hf; rw [hq_emit, ← hqs]; exact hf
            · apply ih s1 v ln rest
              · rw [hq_stack, ← hqs]; exact hstk
              · exact hv
              · exact hchain.2
              · intro ht; have := hbud1 (by rwa [hq_emit, ← hqs] at ht); omega
              · intro ht; have := hbud0 (by rwa [hq_emit, ← hqs] at ht); omega
        · rw [if_neg hem] at hst
          simp only [Except.ok.injEq, Prod.mk.injEq] at hst
          obtain ⟨hqs, -⟩ := hst
          constructor
          · intro hf; rw [hq_emit, ← hqs]; exact hf
          · apply ih s1 v ln rest
            · rw [hq_stack, ← hqs]; exact hstk
            · exact hv
            · exact hchain.2
            · intro ht; have := hbud1 (by rwa [hq_emit, ← hqs] at ht); omega
            · intro ht; have := hbud0 (by rwa [hq_emit, ← hqs] at ht); omega
      · -- undefL
        rename_i nm heq
        have hcnt : countElse (l :: ls) = countElse ls := by
          unfold countElse
          simp [List.countP_cons, heq]
        by_cases hem : truthy s.emit = true
        · rw [if_pos hem] at hst
          cases hdel : delDef s.defs (String.mk nm) with
          | none => rw [hdel] at hst; exact absurd hst (by simp)
          | some dd =>
            rw [hdel] at hst
            simp only [Except.ok.injEq, Prod.mk.injEq] at hst
            obtain ⟨hqs, -⟩ := hst
            constructor
            · intro hf; rw [hq_emit, ← hqs]; exact hf
            · apply ih s1 v ln rest
              · rw [hq_stack, ← hqs]; exact hstk
              · exact hv
              · exact hchain.2
              · intro ht; have := hbud1 (by rwa [hq_emit, ← hqs] at ht); omega
              · intro ht; have := hbud0 (by rwa [hq_emit, ← hqs] at ht); omega
        · rw [if_neg hem] at hst
          simp only [Except.ok.injEq, Prod.mk.injEq] at hst
          obtain ⟨hqs, -⟩ := hst
          constructor
          · intro hf; rw [hq_emit, ← hqs]; exact hf
          · apply ih s1 v ln rest
            · rw [hq_stack, ← hqs]; exact hstk
            · exact hv
            · exact hchain.2
            · intro ht; have := hbud1 (by rwa [hq_emit, ← hqs] at ht); omega
            · intro ht; have := hbud0 (by rwa [hq_emit, ← hqs] at ht); omega
      · -- unknownL: not a chain line
        rename_i heq
        exact absurd hchain.1 (by unfold chainLine; rw [heq]; simp)

/-- C3 amended: in a chain whose branch bodies stay at the chain's own
nesting depth (ELIF/ELSE/DEFINE/UNDEF directives and plain text) and
which contains at most one ELSE directive, once some branch's text has
been emitted (the emission value is truthy, which forces the frame's
stored before-value to be truthy), no later ELIF or ELSE of the chain
ever turns the emission value from falsy to truthy again before the
matching ENDIF — a later ELIF is a no-op while emission is truthy and
aborts the pass with an `IndexError` when it would have to evaluate.
With a second ELSE the property fails (`c3_counterexample`). -/
theorem c3_amended_first_true_wins (s : PState) (v : PyVal) (ln : Nat)
    (rest : List (PyVal × Nat)) (ls : List String)
    (hstk : s.stack = (v, ln) :: rest) (hv : truthy v = true)
    (hemit : truthy s.emit = true)
    (hchain : ls.all chainLine = true) (helse : countElse ls ≤ 1) :
    noFalseToTrue s ls :=
  c3_aux ls s v ln rest hstk hv hchain (fun _ => helse)
    (fun h => by rw [hemit] at h; exact absurd h (by decide))

/-- Witness for C3 amended: a chain state after an emitted branch,
followed by one ELSE and one text line. -/
theorem c3_amended_first_true_wins_witness :
    (PState.mk [(.bool true, 1)] (.bool true) [] 2).stack = [(.bool true, 1)] ∧
      truthy (PyVal.bool true) = true ∧
      truthy (PState.mk [(.bool true, 1)] (.bool true) [] 2).emit = true ∧
      (["##ELSE\n", "x\n"].all chainLine = true) ∧
      countElse ["##ELSE\n", "x\n"] ≤ 1 ∧
      noFalseToTrue ⟨[(.bool true, 1)], .bool true, [], 2⟩ ["##ELSE\n", "x\n"] :=
  ⟨by rfl, by rfl, by rfl, by rfl, by decide,
    c3_amended_first_true_wins ⟨[(.bool true, 1)], .bool true, [], 2⟩
      (.bool true) 1 [] ["##ELSE\n", "x\n"]
      (by rfl) (by rfl) (by rfl) (by rfl) (by decide)⟩

/-- C8: an ELIF, ELSE or ENDIF directive reached while the conditional
stack is empty makes `preprocess` raise the structure error immediately
(whatever lines follow are never processed), and the error message
starts with the 1-based number of the offending line. -/
theorem c8_unexpected_continuation (pre : List String) (dline : String)
    (post : List String) (d : Defs) (s1 : PState) (outs : List String)
    (h1 : runLines (initState d) pre = .ok (s1, outs))
    (h2 : s1.stack = [])
    (h3 : isContinuation dline = true) :
    preprocess (pre ++ dline :: post) d =
      .error (.unexpectedContinuation (pre.length + 1)) ∧
    (∃ a b : String, errMsg (.unexpectedContinuation (pre.length + 1)) =
      a ++ toString (pre.length + 1) ++ b) := by
  have hln : s1.lineno = pre.length + 1 := by
    have h := runLines_lineno pre h1
    rw [h]
    show 1 + pre.length = pre.length + 1
    omega
  have hrd : run1 s1 dline = .error (.unexpectedContinuation (pre.length + 1)) := by
    rw [← hln]
    unfold isContinuation at h3
    unfold run1 step1
    cases hc : classify dline
    case elifL => rw [h2]
    case elseL => rw [h2]
    case endifL => rw [h2]
    all_goals rw [hc] at h3
    all_goals simp at h3
  constructor
  · unfold preprocess
    rw [runLines_append, h1]
    show (match (match runLines s1 (dline :: post) with
                 | Except.error e => Except.error e
                 | Except.ok (s2, o2) => Except.ok (s2, outs ++ o2)) with
          | Except.error e => (Except.error e : Except Err (List String × Defs))
          | Except.ok (st, out) =>
            if st.stack = [] then Except.ok (out, st.defs)
            else Except.error (Err.blocksOpen st.stack)) =
        Except.error (Err.unexpectedContinuation (pre.length + 1))
    rw [runLines_cons, hrd]
  · exact ⟨"", ": Unexpected conditional block continuation", rfl⟩

/-- Witness for C8: a lone `##ENDIF` as the first line. -/
theorem c8_unexpected_continuation_witness :
    runLines (initState []) [] = .ok (initState [], []) ∧
      (initState []).stack = [] ∧
      isContinuation "##ENDIF\n" = true ∧
      preprocess ["##ENDIF\n"] [] = .error (.unexpectedContinuation 1) ∧
      (∃ a b : String, errMsg (.unexpectedContinuation 1) = a ++ toString 1 ++ b) :=
  ⟨rfl, rfl, by rfl,
    (c8_unexpected_continuation [] "##ENDIF\n" [] [] (initState []) [] rfl rfl (by rfl)).1,
    (c8_unexpected_continuation [] "##ENDIF\n" [] [] (initState []) [] rfl rfl (by rfl)).2⟩

/-- Every frame of a list contributes its line number to the Python
repr of the list (without brackets). -/
theorem frames_repr_mem (l : List (PyVal × Nat)) : ∀ f : PyVal × Nat, f ∈ l →
    ∃ a b : String, framesReprCore l = a ++ toString f.2 ++ b := by
  induction l with
  | nil => intro f hf; cases hf
  | cons g rest ih =>
    intro f hf
    cases rest with
    | nil =>
      have hfg : f = g := by simpa using hf
      subst hfg
      refine ⟨"(" ++ pyReprVal f.1 ++ ", ", ")", ?_⟩
      show frameRepr f = _
      unfold frameRepr
      rfl
    | cons g2 rest2 =>
      rcases List.mem_cons.mp hf with hfg | hftail
      · subst hfg
        refine ⟨"(" ++ pyReprVal f.1 ++ ", ", ")" ++ (", " ++ framesReprCore (g2 :: rest2)), ?_⟩
        show (frameRepr f ++ ", ") ++ framesReprCore (g2 :: rest2) = _
        unfold frameRepr
        simp only [String.append_assoc]
      · obtain ⟨a, b, hab⟩ := ih f hftail
        refine ⟨(frameRepr g ++ ", ") ++ a, b, ?_⟩
        show (frameRepr g ++ ", ") ++ framesReprCore (g2 :: rest2) = _
        rw [hab]
        simp only [String.append_assoc]

/-- C9: when the input ends while the conditional stack is non-empty,
`preprocess` raises the structure error carrying the whole stack of
still-open frames, and its message (the Python repr of that stack)
contains the 1-based line number at which each open block started — the
number `enter()` recorded when the frame was pushed. -/
theorem c9_blocks_still_open (ls : List String) (d : Defs) (s1 : PState)
    (outs : List String)
    (h1 : runLines (initState d) ls = .ok (s1, outs))
    (h2 : s1.stack ≠ []) :
    preprocess ls d = .error (.blocksOpen s1.stack) ∧
    ∀ f ∈ s1.stack, ∃ a b : String,
      errMsg (.blocksOpen s1.stack) = a ++ toString f.2 ++ b := by
  constructor
  · unfold preprocess
    rw [h1]
    show (if s1.stack = [] then Except.ok (outs, s1.defs)
          else Except.error (Err.blocksOpen s1.stack)) =
        Except.error (Err.blocksOpen s1.stack)
    rw [if_neg h2]
  · intro f hf
    obtain ⟨a, b, hab⟩ := frames_repr_mem s1.stack.reverse f (List.mem_reverse.mpr hf)
    refine ⟨"Blocks still open at end of input (block starting line): [" ++ a,
            b ++ "]", ?_⟩
    show "Blocks still open at end of input (block starting line): " ++
        ("[" ++ framesReprCore s1.stack.reverse ++ "]") = _
    rw [hab]
    simp only [String.append_assoc]
    rfl

/-- Witness for C9: an unterminated `##IF 1` block. -/
theorem c9_blocks_still_open_witness :
    runLines (initState []) ["##IF 1\n"] =
      .ok (⟨[(.bool true, 1)], .int 1, [], 2⟩, []) ∧
      (PState.mk [(.bool true, 1)] (.int 1) [] 2).stack ≠ [] ∧
      preprocess ["##IF 1\n"] [] = .error (.blocksOpen [(.bool true, 1)]) ∧
      (∀ f ∈ (PState.mk [(.bool true, 1)] (.int 1) [] 2).stack,
        ∃ a b : String, errMsg (.blocksOpen [(.bool true, 1)]) =
          a ++ toString f.2 ++ b) :=
  ⟨rfl, by simp,
    (c9_blocks_still_open ["##IF 1\n"] [] ⟨[(.bool true, 1)], .int 1, [], 2⟩ []
      rfl (by simp)).1,
    (c9_blocks_still_open ["##IF 1\n"] [] ⟨[(.bool true, 1)], .int 1, [], 2⟩ []
      rfl (by simp)).2⟩

/-- No keyword pattern matches a one-character payload: every keyword
needs at least two characters. -/
theorem classifyPayload_single (c : Char) : classifyPayload [c] = .unknownL := by
  have hif : ifMatch [c] = Option.none := by
    unfold ifMatch; split
    · rename_i heq; exact absurd heq (by simp)
    · rfl
  have helif : elifMatch [c] = false := by
    unfold elifMatch; split
    · rename_i heq; exact absurd heq (by simp)
    · rfl
  have helse : elseMatch [c] = false := by
    unfold elseMatch; split
    · rename_i heq; exact absurd heq (by simp)
    · rfl
  have hendif : endifMatch [c] = false := by
    unfold endifMatch; split
    · rename_i heq; exact absurd heq (by simp)
    · rfl
  have hifdef : ifdefMatch [c] = Option.none := by
    unfold ifdefMatch; split
    · rename_i heq; exact absurd heq (by simp)
    · rfl
  have hifndef : ifndefMatch [c] = Option.none := by
    unfold ifndefMatch; split
    · rename_i heq; exact absurd heq (by simp)
    · rfl
  have hdefine : defineMatch [c] = Option.none := by
    unfold defineMatch; split
    · rename_i heq; exact absurd heq (by simp)
    · rfl
  have hundef : undefMatch [c] = Option.none := by
    unfold undefMatch; split
    · rename_i heq; exact absurd heq (by simp)
    · rfl
  unfold classifyPayload
  rw [hif, helif, helse, hendif, hifdef, hifndef, hdefine, hundef]
  rfl

/-- Backtracking of `\s*(.+)` on a run of non-newline whitespace
followed by a newline: the greedy `\s*` gives back exactly one
character, so the captured group is the last whitespace character. -/
theorem msdp_ws_run (ws : List Char) : ws ≠ [] → wsNonNl ws = true →
    ∃ c, matchSpacesDotPlus (ws ++ ['\n']) = some [c] := by
  induction ws with
  | nil => intro h1 _; exact absurd rfl h1
  | cons c cs ih =>
    intro _ h2
    unfold wsNonNl at h2
    simp only [List.all_cons, Bool.and_eq_true] at h2
    obtain ⟨hc, hrest⟩ := h2
    have hsp : isPySpace c = true := hc.1
    have hnl : c ≠ '\n' := by simpa using hc.2
    cases cs with
    | nil =>
      refine ⟨c, ?_⟩
      show matchSpacesDotPlus (c :: ['\n']) = some [c]
      unfold matchSpacesDotPlus
      rw [hsp]
      show (match matchSpacesDotPlus ['\n'] with
            | some g => some g
            | Option.none =>
              if c = '\n' then Option.none
              else some (List.takeWhile (fun d => d ≠ '\n') (c :: ['\n']))) = some [c]
      have hmn : matchSpacesDotPlus ['\n'] = Option.none := rfl
      rw [hmn]
      rw [if_neg hnl]
      simp [List.takeWhile, hnl]
    | cons c2 cs2 =>
      obtain ⟨c', hc'⟩ := ih (by simp) (by unfold wsNonNl; exact hrest)
      rw [List.cons_append] at hc'
      refine ⟨c', ?_⟩
      show matchSpacesDotPlus (c :: (c2 :: (cs2 ++ ['\n']))) = some [c']
      unfold matchSpacesDotPlus
      rw [hsp]
      show (match matchSpacesDotPlus (c2 :: (cs2 ++ ['\n'])) with
            | some g => some g
            | Option.none =>
              if c = '\n' then Option.none
              else some (List.takeWhile (fun d => d ≠ '\n')
                (c :: (c2 :: (cs2 ++ ['\n']))))) = some [c']
      rw [hc']

/-- C10: a line that is exactly the marker `##` followed by its newline
does not match the directive prefix (`\s*` cannot give `(.+)` a
non-newline character), so it is plain text: with a truthy emission
value it is copied verbatim and no error is raised.  A line of `##`
followed only by non-newline whitespace and the newline does match the
prefix — backtracking leaves the last whitespace character as the
payload — and, since no keyword pattern matches it, raises the
unknown-directive structure error of the current line. -/
theorem c10_bare_marker_vs_whitespace (s : PState) (ws : List Char)
    (hemit : truthy s.emit = true)
    (hws1 : ws ≠ []) (hws2 : wsNonNl ws = true) :
    (prefixMatch ("##\n".data) = Option.none ∧
      run1 s "##\n" = .ok ({ s with lineno := s.lineno + 1 }, ["##\n"])) ∧
    ((prefixMatch ('#' :: '#' :: (ws ++ ['\n']))).isSome = true ∧
      run1 s (String.mk ('#' :: '#' :: (ws ++ ['\n']))) =
        .error (.unknownDirective s.lineno)) := by
  obtain ⟨c', hc'⟩ := msdp_ws_run ws hws1 hws2
  have hpm : prefixMatch ('#' :: '#' :: (ws ++ ['\n'])) = some [c'] := by
    unfold prefixMatch
    exact hc'
  refine ⟨⟨rfl, ?_⟩, ⟨by rw [hpm]; rfl, ?_⟩⟩
  · have hcl : classify "##\n" = .textL := rfl
    unfold run1 step1
    rw [hcl]
    simp [hemit]
  · have hcl : classify (String.mk ('#' :: '#' :: (ws ++ ['\n']))) = .unknownL := by
      unfold classify
      show (match prefixMatch ('#' :: '#' :: (ws ++ ['\n'])) with
            | Option.none => LineClass.textL
            | some payload => classifyPayload payload) = LineClass.unknownL
      rw [hpm]
      exact classifyPayload_single c'
    unfold run1 step1
    rw [hcl]

/-- Witness for C10 with a single space after the marker. -/
theorem c10_bare_marker_vs_whitespace_witness :
    truthy (initState []).emit = true ∧ ([' '] : List Char) ≠ [] ∧
      wsNonNl [' '] = true ∧
      ((prefixMatch ("##\n".data) = Option.none ∧
        run1 (initState []) "##\n" =
          .ok ({ initState [] with lineno := (initState []).lineno + 1 }, ["##\n"])) ∧
      ((prefixMatch ('#' :: '#' :: ([' '] ++ ['\n']))).isSome = true ∧
        run1 (initState []) (String.mk ('#' :: '#' :: ([' '] ++ ['\n']))) =
          .error (.unknownDirective (initState []).lineno))) :=
  ⟨rfl, by simp, rfl,
    c10_bare_marker_vs_whitespace (initState []) [' '] rfl (by simp) rfl⟩

end Prepy
